import Mathlib

/-!
Verification development for the yield-components record pipeline
(`backend_app.py`).  The pipeline is embedded shallowly: a pandas
DataFrame becomes a list of named columns of cells, every per-cell
operation of the source becomes a Lean function on `Cell`, and the
`/api/data` handler body becomes `api_data : DF → Except Err Output`.
Python floats are modelled abstractly as NaN, plus/minus infinity, or a
finite rational; pandas missing values (NaN / pd.NA) are the cell `na`,
and the Python object `None` is the cell `none`.
-/

namespace Yield

/-- Abstract model of a Python float: NaN, plus infinity, minus infinity,
or a finite value (modelled as a rational). -/
inductive PFloat where
  | nan : PFloat
  | inf : PFloat
  | ninf : PFloat
  | fin : ℚ → PFloat
deriving DecidableEq, Repr

/-- One cell of the in-memory table.  `na` is a pandas missing value
(NaN / pd.NA as produced by read_csv and the coercions); `none` is the
Python object None (introduced by `df.where(df.notnull(), None)` and by
`classify_liquidity_from_category`). -/
inductive Cell where
  | na : Cell
  | none : Cell
  | str : String → Cell
  | int : Int → Cell
  | float : PFloat → Cell
deriving DecidableEq, Repr

/-- Python `str()` on a cell value, to the extent the pipeline observes
it: `str(nan) = "nan"`, `str(None) = "None"`, strings are themselves,
integers print in decimal, infinities print as `inf` and `-inf`; the
printed form of a finite float is only ever tested for membership in a
set of Hebrew labels, so any numeric rendering is adequate. -/
def pyStr : Cell → String
  | .na => "nan"
  | .none => "None"
  | .str s => s
  | .int n => toString n
  | .float .nan => "nan"
  | .float .inf => "inf"
  | .float .ninf => "-inf"
  | .float (.fin q) => toString q.num ++ "." ++ toString q.den

/-- `clean_nan_inf` from the source: None stays None, a NaN or an
infinite float becomes None, everything else passes through.  A pandas
`na` is a NaN float at runtime, so it is also sent to None. -/
def clean_nan_inf : Cell → Cell
  | .none => .none
  | .na => .none
  | .float .nan => .none
  | .float .inf => .none
  | .float .ninf => .none
  | c => c

/-- `clean_row` from the source: apply `clean_nan_inf` to every value of
the record. -/
def clean_row (r : List (String × Cell)) : List (String × Cell) :=
  r.map (fun kv => (kv.1, clean_nan_inf kv.2))

/-- Strip leading and trailing whitespace from a character list
(Python `str.strip()`). -/
def trimList (l : List Char) : List Char :=
  ((l.dropWhile Char.isWhitespace).reverse.dropWhile Char.isWhitespace).reverse

/-- Python `str.strip()` on a string. -/
def pyStrip (s : String) : String := ⟨trimList s.data⟩

/-- Lower-case a character list (Python `str.lower()` on the ASCII
range, which is all the numeric parser distinguishes). -/
def lowerList (l : List Char) : List Char := l.map Char.toLower

/-- The three designated illiquid investment-channel labels. -/
def illiquidSet : List String := ["נדל\"ן", "קרנות השקעה", "הלוואות"]

/-- `classify_liquidity_from_category` from the source: None maps to
None; otherwise the value is stringified, trimmed, and classified as
illiquid exactly when it is one of the three designated labels. -/
def classify_liquidity_from_category (c : Cell) : Cell :=
  if c = .none then .none
  else if pyStrip (pyStr c) ∈ illiquidSet then .str "לא סחיר"
  else .str "סחיר"

/-- Numeric value of a digit list read in base 10. -/
def digitsToNat (l : List Char) : Nat :=
  l.foldl (fun a c => a * 10 + (c.toNat - 48)) 0

/-- Parse the mantissa part of a numeric literal: either a pure digit
string (an integer literal, `inl`) or a digit string with one decimal
point (`inr`, as an integer numerator over a power-of-ten
denominator). -/
def parseMant (m : List Char) : Option (Int ⊕ (Int × Nat)) :=
  match m.splitOn '.' with
  | [ds] =>
      if ds ≠ [] ∧ ds.all Char.isDigit then some (.inl (digitsToNat ds)) else Option.none
  | [as, bs] =>
      if (as ++ bs) ≠ [] ∧ as.all Char.isDigit ∧ bs.all Char.isDigit then
        some (.inr ((digitsToNat as * 10 ^ bs.length + digitsToNat bs : Nat), 10 ^ bs.length))
      else Option.none
  | _ => Option.none

/-- Parse an exponent part: optional sign followed by at least one
digit. -/
def parseExpInt (e : List Char) : Option Int :=
  let (sgn, r) : Int × List Char :=
    match e with
    | '+' :: r => (1, r)
    | '-' :: r => (-1, r)
    | r => (1, r)
  if r ≠ [] ∧ r.all Char.isDigit then some (sgn * (digitsToNat r : Int)) else Option.none

/-- Numerator of a parsed mantissa. -/
def mantN : Int ⊕ (Int × Nat) → Int
  | .inl n => n
  | .inr p => p.1

/-- Denominator of a parsed mantissa. -/
def mantD : Int ⊕ (Int × Nat) → Nat
  | .inl _ => 1
  | .inr p => p.2

/-- The rational `(num / den) * 10 ^ e`, computed with integer
arithmetic only. -/
def ratTimesPow10 (num : Int) (den : Nat) (e : Int) : ℚ :=
  if 0 ≤ e then mkRat (num * ((10 ^ e.toNat : Nat) : Int)) den
  else mkRat num (den * 10 ^ (-e).toNat)

/-- The numeric-string parser behind `pd.to_numeric`: trimmed,
case-insensitive, optional sign, then `inf`/`infinity`, a digit string
(an integer), or a decimal/scientific literal (a float).  Anything else
is not a number. -/
def parseBody (sgn : Int) (r : List Char) : Cell :=
  if r = "inf".data ∨ r = "infinity".data then
    if sgn = 1 then .float .inf else .float .ninf
  else
    match r.splitOn 'e' with
    | [m] =>
        match parseMant m with
        | some (.inl n) => .int (sgn * n)
        | some (.inr p) => .float (.fin (mkRat (sgn * p.1) p.2))
        | Option.none => .na
    | [m, ex] =>
        match parseMant m, parseExpInt ex with
        | some mv, some e => .float (.fin (ratTimesPow10 (sgn * mantN mv) (mantD mv) e))
        | _, _ => .na
    | _ => .na

def parseNum (s : String) : Cell :=
  match lowerList (trimList s.data) with
  | '+' :: r => parseBody 1 r
  | '-' :: r => parseBody (-1) r
  | r => parseBody 1 r

/-- `pd.to_numeric(·, errors="coerce")` on a single cell: numbers pass
through, missing values stay missing, None becomes missing, and a string
is parsed or coerced to missing. -/
def toNumeric : Cell → Cell
  | .str s => parseNum s
  | .none => .na
  | .na => .na
  | .int n => .int n
  | .float f => .float f

/-- Column-level `pd.to_numeric`: pandas promotes the column to float
when any value is a float or missing, else keeps an integer column. -/
def toNumericCol (vs : List Cell) : List Cell :=
  if (vs.map toNumeric).all (fun v => match v with | .int _ => true | _ => false) then
    vs.map toNumeric
  else (vs.map toNumeric).map (fun v => match v with | .int n => .float (.fin (n : ℚ)) | w => w)

/-- Pipeline errors: a schema error carrying every missing required
column, the IndexError raised by the liquidity normalisation lookup on
an unmatched value, and the TypeError raised by the unsafe
float-to-Int64 cast. -/
inductive Err where
  | schemaError : List String → Err
  | indexError : Err
  | castError : Err
deriving DecidableEq, Repr

/-- `astype("Int64")` on one cell of a to_numeric result: missing values
become pd.NA, integers stay, an integral float is cast safely, and a
non-integral or infinite float raises (pandas refuses the unsafe
cast). -/
def toInt64 : Cell → Except Err Cell
  | .na => .ok .na
  | .none => .ok .na
  | .int n => .ok (.int n)
  | .float .nan => .ok .na
  | .float (.fin q) => if q.den = 1 then .ok (.int q.num) else .error .castError
  | .float .inf => .error .castError
  | .float .ninf => .error .castError
  | .str _ => .error .castError

/-- Python `==` between two cell values as observed by the pipeline:
NaN (and a pandas missing value) is equal to nothing, None equals None,
strings compare as strings, numbers compare numerically across int and
float. -/
def cellEq : Cell → Cell → Bool
  | .none, .none => true
  | .str a, .str b => a = b
  | .int a, .int b => a = b
  | .int a, .float (.fin q) => (a : ℚ) = q
  | .float (.fin q), .int b => q = (b : ℚ)
  | .float (.fin p), .float (.fin q) => p = q
  | .float .inf, .float .inf => true
  | .float .ninf, .float .ninf => true
  | _, _ => false

/-- The in-memory table: a list of named columns plus the row count, the
shape the pipeline observes of a pandas DataFrame. -/
structure DF where
  cols : List (String × List Cell)
  nrows : Nat
deriving DecidableEq, Repr

/-- `c in df.columns`. -/
def hasCol (df : DF) (c : String) : Bool :=
  df.cols.any (fun p => p.1 == c)

/-- `df[c]` as a list of cells (empty when the column is absent). -/
def getCol (df : DF) (c : String) : List Cell :=
  ((df.cols.find? (fun p => p.1 == c)).map Prod.snd).getD []

/-- `df[c] = vs`: replace the named column in place, or append it when
absent. -/
def setCol (df : DF) (c : String) (vs : List Cell) : DF :=
  if hasCol df c then
    ⟨df.cols.map (fun p => if p.1 == c then (p.1, vs) else p), df.nrows⟩
  else ⟨df.cols ++ [(c, vs)], df.nrows⟩

/-- Apply a cell transformation to every cell of every column
(`df.replace` / `df.where` steps). -/
def mapCells (f : Cell → Cell) (df : DF) : DF :=
  ⟨df.cols.map (fun p => (p.1, p.2.map f)), df.nrows⟩

/-- The fixed list of required source (Hebrew) column names. -/
def required_cols : List String :=
  ["אפיק השקעה", "מס מסלול", "שם מסלול אחיד", "שם חברה", "חברה מקוצר",
   "סוג חיסכון", "סוג קופה", "סוג מסלול", "ח.פ", "שנה", "רבעון",
   "תרומה", "משקל", "תשואה"]

/-- The source's `rename_map`, as the exact list of pairs appearing in
the code.  Note that the required column `סוג מסלול` has no entry. -/
def rename_pairs : List (String × String) :=
  [("אפיק השקעה", "category"), ("מס מסלול", "track_id"),
   ("שם מסלול אחיד", "track_name"), ("שם חברה", "company"),
   ("חברה מקוצר", "company_short"), ("סוג חיסכון", "saving_type"),
   ("סוג קופה", "fund_type"), ("ח.פ", "company_id"), ("שנה", "year"),
   ("רבעון", "quarter"), ("תרומה", "contribution"), ("משקל", "weight"),
   ("תשואה", "yield"), ("סחירות", "liquidity")]

/-- The rename applied to one column name: mapped names are replaced,
all others are kept. -/
def renameCol (c : String) : String :=
  ((rename_pairs.find? (fun p => p.1 == c)).map Prod.snd).getD c

/-- `df.rename(columns=rename_map)`. -/
def renameDF (df : DF) : DF :=
  ⟨df.cols.map (fun p => (renameCol p.1, p.2)), df.nrows⟩

/-- `v in ("סחיר", "לא סחיר")`. -/
def canonicalLiq (v : Cell) : Bool :=
  v == .str "סחיר" || v == .str "לא סחיר"

/-- The body of the normalisation lambda of the liquidity column: a
canonical value passes through; otherwise the code looks up the FIRST
row index whose (original) liquidity value equals `v` and classifies
from THAT row's category; when no row matches (a NaN value equals
nothing) the `.iloc[0]` raises an IndexError. -/
def normLiqVal (df : DF) (v : Cell) : Except Err Cell :=
  if canonicalLiq v then .ok v
  else
    match (List.range df.nrows).find?
        (fun j => cellEq ((getCol df "סחירות").getD j .na) v) with
    | some j => .ok (classify_liquidity_from_category ((getCol df "אפיק השקעה").getD j .na))
    | Option.none => .error .indexError

/-- Error-propagating map over a list of cells (the effect of applying
a raising function under `Series.apply`). -/
def mapExcept (f : Cell → Except Err Cell) : List Cell → Except Err (List Cell)
  | [] => .ok []
  | v :: vs =>
    match f v with
    | .error e => .error e
    | .ok w =>
      match mapExcept f vs with
      | .error e => .error e
      | .ok ws => .ok (w :: ws)

/-- The derived-field stage: when the liquidity column is absent it is
derived per row from the category column; when present every value is
normalised by `normLiqVal` against the original column. -/
def liquidityStage (df : DF) : Except Err DF :=
  if hasCol df "סחירות" then
    match mapExcept (normLiqVal df) (getCol df "סחירות") with
    | .error e => .error e
    | .ok vs => .ok (setCol df "סחירות" vs)
  else
    .ok (setCol df "סחירות" ((getCol df "אפיק השקעה").map classify_liquidity_from_category))

/-- The full coercion applied to the values of an integer column:
`pd.to_numeric(..., errors="coerce").astype("Int64")`. -/
def intCoerce (vs : List Cell) : Except Err (List Cell) :=
  mapExcept toInt64 (toNumericCol vs)

/-- Coerce one of the integer columns (`year`, `quarter`) in place. -/
def coerceIntCol (df : DF) (c : String) : Except Err DF :=
  match intCoerce (getCol df c) with
  | .error e => .error e
  | .ok vs => .ok (setCol df c vs)

/-- Coerce one of the float columns (`contribution`, `weight`,
`yield`): `pd.to_numeric(..., errors="coerce")`. -/
def coerceFloatCol (df : DF) (c : String) : DF :=
  setCol df c (toNumericCol (getCol df c))

/-- The type-coercion stage, unrolling the two source loops. -/
def coerceStage (df : DF) : Except Err DF :=
  match coerceIntCol df "year" with
  | .error e => .error e
  | .ok df1 =>
    match coerceIntCol df1 "quarter" with
    | .error e => .error e
    | .ok df2 =>
      .ok (coerceFloatCol (coerceFloatCol (coerceFloatCol df2 "contribution") "weight") "yield")

/-- `df.replace([math.inf, -math.inf], pd.NA)` on one cell. -/
def replaceInf : Cell → Cell
  | .float .inf => .na
  | .float .ninf => .na
  | c => c

/-- `df.where(df.notnull(), None)` on one cell: every missing value
(NaN or pd.NA) becomes the Python object None. -/
def naToNone : Cell → Cell
  | .na => .none
  | .float .nan => .none
  | c => c

/-- `df.to_dict(orient="records")`: one key-value record per row, keys
in column order. -/
def toRecords (df : DF) : List (List (String × Cell)) :=
  (List.range df.nrows).map (fun i => df.cols.map (fun p => (p.1, p.2.getD i .na)))

/-- `r.get(c)` on a record dictionary: None when the key is absent. -/
def rowGet (r : List (String × Cell)) (c : String) : Cell :=
  ((r.find? (fun kv => kv.1 == c)).map Prod.snd).getD .none

/-- Type rank of a cell for the sorting order used by the metadata
lists (a total order extending the value order Python uses on the
homogeneous columns the pipeline sorts). -/
def rank : Cell → Nat
  | .na => 0
  | .none => 1
  | .float .nan => 2
  | .float .ninf => 3
  | .float .inf => 4
  | .int _ => 5
  | .float (.fin _) => 5
  | .str _ => 6

/-- Numeric payload used by the sorting order. -/
def qval : Cell → ℚ
  | .int n => (n : ℚ)
  | .float (.fin q) => q
  | _ => 0

/-- String payload used by the sorting order. -/
def sval : Cell → String
  | .str s => s
  | _ => ""

/-- Lexicographic order on character lists by code point, as a
computable Boolean (the order Python uses on strings). -/
def charListLe : List Char → List Char → Bool
  | [], _ => true
  | _ :: _, [] => false
  | a :: as, b :: bs => if a < b then true else if b < a then false else charListLe as bs

/-- Lexicographic code-point order on strings. -/
def strLe (s t : String) : Prop := charListLe s.data t.data = true

/-- Total order on cells: lexicographically by type rank, then numeric
value, then string value.  On an all-string or all-integer list it
coincides with Python's sort order. -/
def cellLe (a b : Cell) : Prop :=
  rank a < rank b ∨ (rank a = rank b ∧ (qval a < qval b ∨ (qval a = qval b ∧ strLe (sval a) (sval b))))

instance cellLe.instDecidable : DecidableRel cellLe := fun a b => by
  unfold cellLe strLe; infer_instance

/-- The non-None values of one column across the output records
(`r[col] for r in rows if r.get(col) is not None`). -/
def colVals (rows : List (List (String × Cell))) (c : String) : List Cell :=
  (rows.map (fun r => rowGet r c)).filter (fun v => !(v == Cell.none))

/-- `sorted({r[col] for r in rows if r.get(col) is not None})`. -/
def unique_sorted (rows : List (List (String × Cell))) (c : String) : List Cell :=
  List.insertionSort cellLe (colVals rows c).dedup

/-- The metadata object built by the handler. -/
structure Meta where
  file : String
  companies : List Cell
  tracks : List Cell
  categories : List Cell
  saving_types : List Cell
  fund_types : List Cell
  liquidity : List Cell
  years : List Cell
  min_year : Cell
  max_year : Cell
  total_rows : Nat
deriving DecidableEq, Repr

/-- The fixed CSV file name. -/
def FIXED_CSV_NAME : String := "all_companies_all_yields.csv"

/-- The `meta` dictionary of the handler. -/
def buildMeta (rows : List (List (String × Cell))) : Meta :=
  let years := unique_sorted rows "year"
  { file := FIXED_CSV_NAME
    companies := unique_sorted rows "company_short"
    tracks := unique_sorted rows "track_name"
    categories := unique_sorted rows "category"
    saving_types := unique_sorted rows "saving_type"
    fund_types := unique_sorted rows "fund_type"
    liquidity := unique_sorted rows "liquidity"
    years := years
    min_year := years.headD Cell.none
    max_year := years.getLastD Cell.none
    total_rows := rows.length }

/-- The handler's successful payload: the sanitized records and the
metadata. -/
structure Output where
  rows : List (List (String × Cell))
  meta : Meta
deriving DecidableEq, Repr

/-- The core of the `/api/data` handler, from the loaded table to the
payload or the raised error: schema validation, the derived liquidity
column, the rename, the type coercions, the Inf and null replacements,
the record conversion with `clean_row`, and the metadata. -/
def api_data (t : DF) : Except Err Output :=
  if required_cols.filter (fun c => !(hasCol t c)) = [] then
    match liquidityStage t with
    | .error e => .error e
    | .ok df1 =>
      match coerceStage (renameDF df1) with
      | .error e => .error e
      | .ok df2 =>
        let dfc := mapCells naToNone (mapCells replaceInf df2)
        let rows := (toRecords dfc).map clean_row
        .ok ⟨rows, buildMeta rows⟩
  else .error (.schemaError (required_cols.filter (fun c => !(hasCol t c))))

/-- Column names of the table after the derived-field stage (the
original columns, with the liquidity column appended when absent). -/
def liqCols (t : DF) : List String :=
  if hasCol t "סחירות" then t.cols.map Prod.fst else t.cols.map Prod.fst ++ ["סחירות"]

/-- Well-formed input: column labels stay pairwise distinct even after
the rename, as is the case for every table produced by `read_csv`
(pandas mangles duplicate headers). -/
def Wf (t : DF) : Prop :=
  ((liqCols t).map renameCol).Nodup

instance Wf.instDecidable (t : DF) : Decidable (Wf t) := by
  unfold Wf
  infer_instance

/-- A one-row source table with every required column and no liquidity
column: category stocks, year 2023, quarter 1, numeric measures, an
infinite yield. -/
def tblBase : DF :=
  ⟨[("אפיק השקעה", [.str "מניות"]), ("מס מסלול", [.int 1]),
    ("שם מסלול אחיד", [.str "מסלול א"]), ("שם חברה", [.str "חברה א"]),
    ("חברה מקוצר", [.str "א"]), ("סוג חיסכון", [.str "גמל"]),
    ("סוג קופה", [.str "קופה"]), ("סוג מסלול", [.str "רגיל"]),
    ("ח.פ", [.int 512]), ("שנה", [.str "2023"]), ("רבעון", [.int 1]),
    ("תרומה", [.float (.fin 2)]), ("משקל", [.str "0.5"]),
    ("תשואה", [.str "inf"])], 1⟩

/-- A two-row table WITH a liquidity column in which both rows carry the
same non-canonical liquidity value but different categories: row 0 is
stocks (liquid), row 1 is real estate (illiquid). -/
def tblShared : DF :=
  ⟨[("אפיק השקעה", [.str "מניות", .str "נדל\"ן"]),
    ("מס מסלול", [.int 1, .int 2]),
    ("שם מסלול אחיד", [.str "מסלול א", .str "מסלול ב"]),
    ("שם חברה", [.str "חברה א", .str "חברה ב"]),
    ("חברה מקוצר", [.str "א", .str "ב"]),
    ("סוג חיסכון", [.str "גמל", .str "גמל"]),
    ("סוג קופה", [.str "קופה", .str "קופה"]),
    ("סוג מסלול", [.str "רגיל", .str "רגיל"]),
    ("ח.פ", [.int 512, .int 513]),
    ("שנה", [.int 2023, .int 2022]),
    ("רבעון", [.int 1, .int 2]),
    ("תרומה", [.int 2, .int 3]),
    ("משקל", [.str "0.5", .str "0.25"]),
    ("תשואה", [.str "3.5", .str "abc"]),
    ("סחירות", [.str "חלקי", .str "חלקי"])], 2⟩

/-- A one-row table WITH a liquidity column holding a canonical value
while the category is missing (an empty CSV cell). -/
def tblStale : DF :=
  ⟨[("אפיק השקעה", [.na]), ("מס מסלול", [.int 1]),
    ("שם מסלול אחיד", [.str "מסלול א"]), ("שם חברה", [.str "חברה א"]),
    ("חברה מקוצר", [.str "א"]), ("סוג חיסכון", [.str "גמל"]),
    ("סוג קופה", [.str "קופה"]), ("סוג מסלול", [.str "רגיל"]),
    ("ח.פ", [.int 512]), ("שנה", [.int 2023]), ("רבעון", [.int 1]),
    ("תרומה", [.int 2]), ("משקל", [.int 1]), ("תשואה", [.int 3]),
    ("סחירות", [.str "סחיר"])], 1⟩

/-- A one-row table WITH a liquidity column holding a canonical liquid
value while the category is one of the illiquid labels. -/
def tblIlliquidStale : DF :=
  ⟨[("אפיק השקעה", [.str "נדל\"ן"]), ("מס מסלול", [.int 1]),
    ("שם מסלול אחיד", [.str "מסלול א"]), ("שם חברה", [.str "חברה א"]),
    ("חברה מקוצר", [.str "א"]), ("סוג חיסכון", [.str "גמל"]),
    ("סוג קופה", [.str "קופה"]), ("סוג מסלול", [.str "רגיל"]),
    ("ח.פ", [.int 512]), ("שנה", [.int 2023]), ("רבעון", [.int 1]),
    ("תרומה", [.int 2]), ("משקל", [.int 1]), ("תשואה", [.int 3]),
    ("סחירות", [.str "סחיר"])], 1⟩

/-- The base table with the year column replaced by the parseable but
non-integral value "2.5". -/
def tblBadYear : DF :=
  ⟨[("אפיק השקעה", [.str "מניות"]), ("מס מסלול", [.int 1]),
    ("שם מסלול אחיד", [.str "מסלול א"]), ("שם חברה", [.str "חברה א"]),
    ("חברה מקוצר", [.str "א"]), ("סוג חיסכון", [.str "גמל"]),
    ("סוג קופה", [.str "קופה"]), ("סוג מסלול", [.str "רגיל"]),
    ("ח.פ", [.int 512]), ("שנה", [.str "2.5"]), ("רבעון", [.int 1]),
    ("תרומה", [.int 2]), ("משקל", [.int 1]), ("תשואה", [.int 3])], 1⟩

/-- The base table with its yield column (תשואה) removed and its weight
column (משקל) removed, so two required columns are missing. -/
def tblMissing : DF :=
  ⟨[("אפיק השקעה", [.str "מניות"]), ("מס מסלול", [.int 1]),
    ("שם מסלול אחיד", [.str "מסלול א"]), ("שם חברה", [.str "חברה א"]),
    ("חברה מקוצר", [.str "א"]), ("סוג חיסכון", [.str "גמל"]),
    ("סוג קופה", [.str "קופה"]), ("סוג מסלול", [.str "רגיל"]),
    ("ח.פ", [.int 512]), ("שנה", [.int 2023]), ("רבעון", [.int 1]),
    ("תרומה", [.int 2])], 1⟩

instance instDecEqExcept {ε α : Type} [DecidableEq ε] [DecidableEq α] :
    DecidableEq (Except ε α) := fun a b =>
  match a, b with
  | .ok x, .ok y =>
      if h : x = y then isTrue (by rw [h])
      else isFalse (by intro hh; cases hh; exact h rfl)
  | .error x, .error y =>
      if h : x = y then isTrue (by rw [h])
      else isFalse (by intro hh; cases hh; exact h rfl)
  | .ok _, .error _ => isFalse (by intro hh; cases hh)
  | .error _, .ok _ => isFalse (by intro hh; cases hh)

/-- A cell is "good" when it is not a NaN and not an infinity (a pandas
missing value is a NaN float at runtime, so it is not good either). -/
def goodCell : Cell → Bool
  | .na => false
  | .float .nan => false
  | .float .inf => false
  | .float .ninf => false
  | _ => true

/-- Whether a cell is a Python float at runtime (a pandas missing value
is the float NaN). -/
def isPyFloat : Cell → Bool
  | .float _ => true
  | .na => true
  | _ => false

/-- Whether a cell is a number or a missing value (the shape of every
`pd.to_numeric` result). -/
def isNumOrNa : Cell → Bool
  | .na => true
  | .int _ => true
  | .float _ => true
  | _ => false

/-- Whether `pd.to_numeric` turns the cell into a numeric value that is
not exactly an integer (the values on which the Int64 cast raises). -/
def nonIntegralNum (v : Cell) : Bool :=
  match toNumeric v with
  | .float (.fin q) => !(q.den == 1)
  | .float .inf => true
  | .float .ninf => true
  | _ => false

/-- The per-cell effect of the three sanitization steps that follow the
coercions: the Inf replacement, the null replacement, and
`clean_nan_inf` inside `clean_row`. -/
def postCell (v : Cell) : Cell :=
  clean_nan_inf (naToNone (replaceInf v))

/-- A default output value, used only to project concrete successful
runs in closed statements. -/
def emptyOutput : Output :=
  ⟨[], ⟨"", [], [], [], [], [], [], [], .none, .none, 0⟩⟩

/-- The (successful) pipeline output on `tblBase`. -/
def apiBase : Output := (api_data tblBase).toOption.getD emptyOutput

/-- The (successful) pipeline output on `tblShared`. -/
def apiShared : Output := (api_data tblShared).toOption.getD emptyOutput

theorem charListLe_refl : ∀ l : List Char, charListLe l l = true
  | [] => rfl
  | a :: as => by
      simp only [charListLe, lt_irrefl a, if_false]
      exact charListLe_refl as

theorem charListLe_total : ∀ l₁ l₂ : List Char, charListLe l₁ l₂ = true ∨ charListLe l₂ l₁ = true
  | [], _ => Or.inl rfl
  | _ :: _, [] => Or.inr rfl
  | a :: as, b :: bs => by
      simp only [charListLe]
      rcases lt_trichotomy a b with h | h | h
      · simp [h]
      · subst h
        simp only [lt_irrefl a, if_false]
        exact charListLe_total as bs
      · simp [h, lt_asymm h]

theorem charListLe_trans :
    ∀ l₁ l₂ l₃ : List Char, charListLe l₁ l₂ = true → charListLe l₂ l₃ = true →
      charListLe l₁ l₃ = true
  | [], _, _, _, _ => rfl
  | _ :: _, [], _, h, _ => by simp [charListLe] at h
  | _ :: _, _ :: _, [], _, h => by simp [charListLe] at h
  | a :: as, b :: bs, c :: cs, h₁, h₂ => by
      simp only [charListLe] at h₁ h₂ ⊢
      by_cases hab : a < b
      · by_cases hbc : b < c
        · simp [hab.trans hbc]
        · by_cases hcb : c < b
          · simp [hbc, hcb] at h₂
          · have hbc' : b = c := ((lt_trichotomy b c).resolve_left hbc).resolve_right hcb
            subst hbc'
            simp [hab]
      · by_cases hba : b < a
        · simp [hab, hba] at h₁
        · have hab' : a = b := ((lt_trichotomy a b).resolve_left hab).resolve_right hba
          subst hab'
          rw [if_neg (lt_irrefl a), if_neg (lt_irrefl a)] at h₁
          by_cases hac : a < c
          · simp [hac]
          · by_cases hca : c < a
            · simp [hac, hca] at h₂
            · have hac' : a = c := ((lt_trichotomy a c).resolve_left hac).resolve_right hca
              subst hac'
              rw [if_neg (lt_irrefl a), if_neg (lt_irrefl a)] at h₂ ⊢
              exact charListLe_trans as bs cs h₁ h₂

instance cellLe.instTotal : IsTotal Cell cellLe := by
  constructor
  intro a b
  unfold cellLe
  rcases lt_trichotomy (rank a) (rank b) with h | h | h
  · exact Or.inl (Or.inl h)
  · rcases lt_trichotomy (qval a) (qval b) with h2 | h2 | h2
    · exact Or.inl (Or.inr ⟨h, Or.inl h2⟩)
    · rcases charListLe_total (sval a).data (sval b).data with h3 | h3
      · exact Or.inl (Or.inr ⟨h, Or.inr ⟨h2, h3⟩⟩)
      · exact Or.inr (Or.inr ⟨h.symm, Or.inr ⟨h2.symm, h3⟩⟩)
    · exact Or.inr (Or.inr ⟨h.symm, Or.inl h2⟩)
  · exact Or.inr (Or.inl h)

instance cellLe.instTrans : IsTrans Cell cellLe := by
  constructor
  intro a b c hab hbc
  rcases hab with h1 | ⟨e1, h1⟩
  · rcases hbc with h2 | ⟨e2, h2⟩
    · exact Or.inl (h1.trans h2)
    · exact Or.inl (e2 ▸ h1)
  · rcases hbc with h2 | ⟨e2, h2⟩
    · exact Or.inl (e1 ▸ h2)
    · refine Or.inr ⟨e1.trans e2, ?_⟩
      rcases h1 with q1 | ⟨f1, s1⟩
      · rcases h2 with q2 | ⟨f2, s2⟩
        · exact Or.inl (q1.trans q2)
        · exact Or.inl (f2 ▸ q1)
      · rcases h2 with q2 | ⟨f2, s2⟩
        · exact Or.inl (f1 ▸ q2)
        · exact Or.inr ⟨f1.trans f2, charListLe_trans _ _ _ s1 s2⟩

instance cellLe.instRefl : IsRefl Cell cellLe :=
  ⟨fun _ => Or.inr ⟨rfl, Or.inr ⟨rfl, charListLe_refl _⟩⟩⟩

theorem api_data_ok {t : DF} {o : Output} (h : api_data t = .ok o) :
    ∃ df1 df2, required_cols.filter (fun c => !(hasCol t c)) = []
      ∧ liquidityStage t = .ok df1
      ∧ coerceStage (renameDF df1) = .ok df2
      ∧ o.rows = (toRecords (mapCells naToNone (mapCells replaceInf df2))).map clean_row
      ∧ o.meta = buildMeta o.rows := by
  unfold api_data at h
  split at h
  · rename_i hmiss
    split at h
    · cases h
    · rename_i df1 hliq
      split at h
      · cases h
      · rename_i df2 hco
        refine ⟨df1, df2, hmiss, hliq, hco, ?_, ?_⟩ <;> cases h <;> rfl
  · cases h

theorem mapExcept_ok_mem (f : Cell → Except Err Cell) :
    ∀ (l l' : List Cell), mapExcept f l = .ok l' → ∀ w ∈ l', ∃ v ∈ l, f v = .ok w := by
  intro l
  induction l with
  | nil =>
    intro l' h w hw
    unfold mapExcept at h
    cases h
    cases hw
  | cons v vs ih =>
    intro l' h w hw
    unfold mapExcept at h
    cases hf : f v with
    | error e => rw [hf] at h; cases h
    | ok w0 =>
      rw [hf] at h
      cases hrest : mapExcept f vs with
      | error e => rw [hrest] at h; cases h
      | ok ws =>
        rw [hrest] at h
        cases h
        rcases List.mem_cons.mp hw with rfl | hw'
        · exact ⟨v, List.mem_cons_self v vs, hf⟩
        · obtain ⟨u, hu, hfu⟩ := ih ws hrest w hw'
          exact ⟨u, List.mem_cons_of_mem _ hu, hfu⟩

theorem mapExcept_ok_of (f : Cell → Except Err Cell) (P : Cell → Prop) :
    ∀ l, (∀ v ∈ l, ∃ w, f v = .ok w ∧ P w) →
      ∃ l', mapExcept f l = .ok l' ∧ l'.length = l.length ∧ ∀ w ∈ l', P w := by
  intro l
  induction l with
  | nil => exact fun _ => ⟨[], rfl, rfl, fun w hw => absurd hw (List.not_mem_nil w)⟩
  | cons v vs ih =>
    intro hall
    obtain ⟨w, hw, hPw⟩ := hall v (List.mem_cons_self v vs)
    obtain ⟨ws, hws, hlen, hP⟩ := ih (fun u hu => hall u (List.mem_cons_of_mem _ hu))
    refine ⟨w :: ws, ?_, by simp [hlen], ?_⟩
    · unfold mapExcept; rw [hw, hws]
    · intro u hu
      rcases List.mem_cons.mp hu with rfl | hu'
      · exact hPw
      · exact hP u hu'

theorem mapExcept_error (f : Cell → Except Err Cell) (e : Err) :
    ∀ l, (∀ v ∈ l, f v = .error e ∨ ∃ w, f v = .ok w) →
      (∃ v ∈ l, f v = .error e) → mapExcept f l = .error e := by
  intro l
  induction l with
  | nil =>
    intro _ h
    obtain ⟨v, hv, _⟩ := h
    cases hv
  | cons v vs ih =>
    intro hall hex
    unfold mapExcept
    rcases hall v (List.mem_cons_self v vs) with hv | ⟨w, hw⟩
    · rw [hv]
    · rw [hw]
      obtain ⟨u, hu, hue⟩ := hex
      rcases List.mem_cons.mp hu with rfl | hu'
      · rw [hw] at hue; cases hue
      · rw [ih (fun x hx => hall x (List.mem_cons_of_mem _ hx)) ⟨u, hu', hue⟩]

theorem mapExcept_map (f : Cell → Except Err Cell) (g : Cell → Cell) :
    ∀ l, mapExcept f (l.map g) = mapExcept (fun v => f (g v)) l := by
  intro l
  induction l with
  | nil => rfl
  | cons v vs ih =>
    simp only [List.map_cons]
    unfold mapExcept
    rw [ih]

theorem find?_map_replace (c : String) (vs : List Cell) :
    ∀ l : List (String × List Cell),
      (l.map (fun p => if p.1 == c then (p.1, vs) else p)).find? (fun p => p.1 == c)
        = (l.find? (fun p => p.1 == c)).map (fun p => (p.1, vs)) := by
  intro l
  induction l with
  | nil => rfl
  | cons p ps ih =>
    simp only [List.map_cons]
    by_cases hp : p.1 = c
    · subst hp
      simp [List.find?_cons]
    · have hp' : (p.1 == c) = false := by simp [hp]
      rw [if_neg (by simp [hp])]
      simp only [List.find?, hp']
      exact ih

theorem getCol_setCol_self (df : DF) (c : String) (vs : List Cell) :
    getCol (setCol df c vs) c = vs := by
  unfold setCol
  by_cases h : hasCol df c
  · rw [if_pos h]
    unfold getCol
    rw [find?_map_replace]
    unfold hasCol at h
    obtain ⟨p, hp, hpc⟩ := List.any_eq_true.mp h
    cases hfind : df.cols.find? (fun p => p.1 == c) with
    | none =>
      rw [List.find?_eq_none] at hfind
      exact absurd hpc (hfind p hp)
    | some q => rfl
  · rw [if_neg h]
    unfold getCol
    rw [List.find?_append]
    unfold hasCol at h
    have hnone : df.cols.find? (fun p => p.1 == c) = Option.none := by
      rw [List.find?_eq_none]
      intro x hx hxc
      exact h (List.any_eq_true.mpr ⟨x, hx, hxc⟩)
    rw [hnone]
    simp [List.find?_cons]

theorem getCol_setCol_ne (df : DF) (c c' : String) (vs : List Cell) (h : c ≠ c') :
    getCol (setCol df c' vs) c = getCol df c := by
  unfold setCol
  by_cases hc : hasCol df c'
  · rw [if_pos hc]
    unfold getCol
    rw [List.find?_map]
    have hcomp : ((fun p : String × List Cell => p.1 == c) ∘
          (fun p => if p.1 == c' then (p.1, vs) else p))
        = (fun p : String × List Cell => p.1 == c) := by
      funext p
      by_cases hp : p.1 = c' <;> simp [hp]
    rw [hcomp]
    cases hfind : df.cols.find? (fun p => p.1 == c) with
    | none => rfl
    | some q =>
      have hq0 := List.find?_some hfind
      have hq : q.1 = c := by simpa using hq0
      have hne : ¬ (q.1 = c') := by rw [hq]; exact h
      simp [hne]
  · rw [if_neg hc]
    unfold getCol
    rw [List.find?_append]
    cases hfind : df.cols.find? (fun p => p.1 == c) with
    | none =>
      have : (c' == c) = false := by
        simp only [beq_eq_false_iff_ne, ne_eq]
        exact fun hh => h hh.symm
      simp [List.find?_cons, this]
    | some q => rfl

theorem getCol_mapCells (f : Cell → Cell) (df : DF) (c : String) :
    getCol (mapCells f df) c = (getCol df c).map f := by
  unfold mapCells getCol
  rw [List.find?_map]
  have hcomp : ((fun p : String × List Cell => p.1 == c) ∘ (fun p => (p.1, p.2.map f)))
      = (fun p : String × List Cell => p.1 == c) := rfl
  rw [hcomp]
  cases hfind : df.cols.find? (fun p => p.1 == c) with
  | none => rfl
  | some q => rfl

theorem hasCol_iff_names (df : DF) (c : String) :
    hasCol df c = true ↔ c ∈ df.cols.map Prod.fst := by
  unfold hasCol
  rw [List.any_eq_true]
  constructor
  · rintro ⟨p, hp, hpc⟩
    exact List.mem_map.mpr ⟨p, hp, (beq_iff_eq.mp hpc).symm ▸ rfl⟩
  · rintro hm
    obtain ⟨p, hp, hpc⟩ := List.mem_map.mp hm
    exact ⟨p, hp, by simp [hpc]⟩

theorem setCol_names_replace (df : DF) (c : String) (vs : List Cell)
    (h : hasCol df c = true) :
    (setCol df c vs).cols.map Prod.fst = df.cols.map Prod.fst := by
  unfold setCol
  rw [if_pos h]
  simp only [List.map_map]
  apply List.map_congr_left
  intro p _
  by_cases hp : p.1 = c <;> simp [hp]

theorem setCol_names_append (df : DF) (c : String) (vs : List Cell)
    (h : hasCol df c = false) :
    (setCol df c vs).cols.map Prod.fst = df.cols.map Prod.fst ++ [c] := by
  unfold setCol
  rw [if_neg (by simp [h])]
  simp

theorem setCol_nrows (df : DF) (c : String) (vs : List Cell) :
    (setCol df c vs).nrows = df.nrows := by
  unfold setCol
  by_cases h : hasCol df c <;> simp [h]

theorem mapCells_names (f : Cell → Cell) (df : DF) :
    (mapCells f df).cols.map Prod.fst = df.cols.map Prod.fst := by
  unfold mapCells
  simp [List.map_map]

theorem mapCells_nrows (f : Cell → Cell) (df : DF) :
    (mapCells f df).nrows = df.nrows := rfl

theorem renameDF_names (df : DF) :
    (renameDF df).cols.map Prod.fst = (df.cols.map Prod.fst).map renameCol := by
  unfold renameDF
  simp [List.map_map]

theorem renameDF_nrows (df : DF) : (renameDF df).nrows = df.nrows := rfl

theorem getCol_renameDF (df : DF) (c : String) (hc : hasCol df c = true)
    (hnd : ((df.cols.map Prod.fst).map renameCol).Nodup) :
    getCol (renameDF df) (renameCol c) = getCol df c := by
  rw [hasCol_iff_names] at hc
  unfold renameDF getCol
  obtain ⟨l, n⟩ := df
  simp only at hc hnd ⊢
  induction l with
  | nil => cases hc
  | cons p ps ih =>
    simp only [List.map_cons] at hc hnd ⊢
    by_cases hp : p.1 = c
    · subst hp
      simp [List.find?_cons]
    · have hc' : c ∈ ps.map Prod.fst := by
        rcases List.mem_cons.mp hc with h1 | h1
        · exact absurd h1.symm hp
        · exact h1
      have hnd' := List.nodup_cons.mp hnd
      have hrne : ¬ (renameCol p.1 = renameCol c) := by
        intro he
        exact hnd'.1 (he ▸ List.mem_map.mpr ⟨c, hc', rfl⟩)
      have h1 : (renameCol p.1 == renameCol c) = false := by simp [hrne]
      have h2 : (p.1 == c) = false := by simp [hp]
      simp only [List.find?, h1, h2]
      exact ih hc' hnd'.2

theorem toRecords_getD (df : DF) (i : Nat) (h : i < df.nrows) :
    (toRecords df).getD i [] = df.cols.map (fun p => (p.1, p.2.getD i Cell.na)) := by
  unfold toRecords
  rw [List.getD_eq_getElem?_getD, List.getElem?_map, List.getElem?_range h]
  rfl

theorem toRecords_length (df : DF) : (toRecords df).length = df.nrows := by
  unfold toRecords
  simp

theorem rowGet_clean_record (df : DF) (i : Nat) (c : String) :
    rowGet (clean_row (df.cols.map (fun p => (p.1, p.2.getD i Cell.na)))) c
      = clean_nan_inf ((getCol df c).getD i Cell.na) := by
  unfold clean_row rowGet getCol
  simp only [List.map_map, Function.comp]
  obtain ⟨l, n⟩ := df
  simp only
  induction l with
  | nil => rfl
  | cons p ps ih =>
    by_cases hp : p.1 = c
    · subst hp
      simp [List.find?_cons]
    · have h2 : (p.1 == c) = false := by simp [hp]
      simp only [List.map_cons, List.find?, Function.comp_apply, h2]
      exact ih

theorem getD_map_clean_row (L : List (List (String × Cell))) (i : Nat) :
    (L.map clean_row).getD i [] = clean_row (L.getD i []) := by
  rcases lt_or_ge i L.length with h | h
  · rw [List.getD_eq_getElem?_getD, List.getD_eq_getElem?_getD, List.getElem?_map,
      List.getElem?_eq_getElem h]
    rfl
  · rw [List.getD_eq_default _ _ (by simpa using h), List.getD_eq_default _ _ h]
    rfl

theorem clean_getD_mapCells (l : List Cell) (i : Nat) :
    clean_nan_inf (((l.map replaceInf).map naToNone).getD i Cell.na)
      = postCell (l.getD i Cell.na) := by
  rcases lt_or_ge i l.length with h | h
  · rw [List.getD_eq_getElem?_getD, List.getD_eq_getElem?_getD, List.getElem?_map,
      List.getElem?_map, List.getElem?_eq_getElem h]
    rfl
  · rw [List.getD_eq_default _ _ (by simpa using h), List.getD_eq_default _ _ h]
    rfl

theorem required_present (t : DF)
    (hmiss : required_cols.filter (fun c => !(hasCol t c)) = []) :
    ∀ c ∈ required_cols, hasCol t c = true := by
  intro c hc
  have := List.filter_eq_nil_iff.mp hmiss c hc
  simpa using this

theorem classify_mem (c : Cell) :
    classify_liquidity_from_category c = Cell.none
    ∨ classify_liquidity_from_category c = .str "לא סחיר"
    ∨ classify_liquidity_from_category c = .str "סחיר" := by
  unfold classify_liquidity_from_category
  by_cases h1 : c = Cell.none
  · simp [h1]
  · rw [if_neg h1]
    by_cases h2 : pyStrip (pyStr c) ∈ illiquidSet
    · simp [h2]
    · simp [h2]

theorem normLiqVal_mem (df : DF) (u v : Cell) (h : normLiqVal df u = .ok v) :
    v = Cell.none ∨ v = .str "סחיר" ∨ v = .str "לא סחיר" := by
  unfold normLiqVal at h
  by_cases hc : canonicalLiq u = true
  · rw [if_pos hc] at h
    cases h
    unfold canonicalLiq at hc
    simp only [Bool.or_eq_true] at hc
    rcases hc with h1 | h1
    · right; left; exact beq_iff_eq.mp h1
    · right; right; exact beq_iff_eq.mp h1
  · rw [if_neg hc] at h
    cases hfind : (List.range df.nrows).find?
        (fun j => cellEq ((getCol df "סחירות").getD j .na) u) with
    | none => rw [hfind] at h; cases h
    | some j =>
      rw [hfind] at h
      cases h
      rcases classify_mem ((getCol df "אפיק השקעה").getD j .na) with h | h | h
      · left; exact h
      · right; right; exact h
      · right; left; exact h

theorem liquidityStage_absent (t : DF) (h : hasCol t "סחירות" = false) :
    liquidityStage t
      = .ok (setCol t "סחירות"
          ((getCol t "אפיק השקעה").map classify_liquidity_from_category)) := by
  unfold liquidityStage
  rw [if_neg (by simp [h])]

theorem liquidityStage_present (t df1 : DF) (h : hasCol t "סחירות" = true)
    (hok : liquidityStage t = .ok df1) :
    ∃ vs, mapExcept (normLiqVal t) (getCol t "סחירות") = .ok vs
      ∧ df1 = setCol t "סחירות" vs := by
  unfold liquidityStage at hok
  rw [if_pos h] at hok
  cases hm : mapExcept (normLiqVal t) (getCol t "סחירות") with
  | error e => rw [hm] at hok; cases hok
  | ok vs =>
    rw [hm] at hok
    cases hok
    exact ⟨vs, rfl, rfl⟩

theorem liquidityStage_props (t df1 : DF) (hok : liquidityStage t = .ok df1) :
    df1.cols.map Prod.fst = liqCols t
    ∧ df1.nrows = t.nrows
    ∧ hasCol df1 "סחירות" = true
    ∧ ∀ v ∈ getCol df1 "סחירות",
        v = Cell.none ∨ v = .str "סחיר" ∨ v = .str "לא סחיר" := by
  by_cases h : hasCol t "סחירות" = true
  · obtain ⟨vs, hm, rfl⟩ := liquidityStage_present t df1 h hok
    have hnames : (setCol t "סחירות" vs).cols.map Prod.fst = liqCols t := by
      rw [setCol_names_replace _ _ _ h]
      unfold liqCols
      rw [if_pos h]
    refine ⟨hnames, setCol_nrows .., ?_, ?_⟩
    · rw [hasCol_iff_names, hnames]
      unfold liqCols
      rw [if_pos h]
      exact (hasCol_iff_names t _).mp h
    · rw [getCol_setCol_self]
      intro v hv
      obtain ⟨u, _, huv⟩ := mapExcept_ok_mem _ _ _ hm v hv
      exact normLiqVal_mem _ _ _ huv
  · have h' : hasCol t "סחירות" = false := by simpa using h
    rw [liquidityStage_absent t h'] at hok
    cases hok
    have hnames : (setCol t "סחירות"
        ((getCol t "אפיק השקעה").map classify_liquidity_from_category)).cols.map Prod.fst
        = liqCols t := by
      rw [setCol_names_append _ _ _ h']
      unfold liqCols
      rw [if_neg (by simp [h'])]
    refine ⟨hnames, setCol_nrows .., ?_, ?_⟩
    · rw [hasCol_iff_names, hnames]
      unfold liqCols
      rw [if_neg (by simp [h'])]
      exact List.mem_append_right _ (List.mem_singleton.mpr rfl)
    · rw [getCol_setCol_self]
      intro v hv
      obtain ⟨u, _, huv⟩ := List.mem_map.mp hv
      rcases classify_mem u with hcl | hcl | hcl
      · left; rw [← huv]; exact hcl
      · right; right; rw [← huv]; exact hcl
      · right; left; rw [← huv]; exact hcl

theorem hasCol_of_names_eq (df df' : DF) (c : String)
    (hn : df'.cols.map Prod.fst = df.cols.map Prod.fst)
    (h : hasCol df c = true) : hasCol df' c = true := by
  rw [hasCol_iff_names, hn]
  exact (hasCol_iff_names df c).mp h

theorem coerceIntCol_ok (df df' : DF) (c : String) (h : coerceIntCol df c = .ok df') :
    ∃ vs, intCoerce (getCol df c) = .ok vs ∧ df' = setCol df c vs := by
  unfold coerceIntCol at h
  cases hm : intCoerce (getCol df c) with
  | error e => rw [hm] at h; cases h
  | ok vs =>
    rw [hm] at h
    cases h
    exact ⟨vs, rfl, rfl⟩

theorem coerceFloatCol_props (df : DF) (c : String) (h : hasCol df c = true) :
    (coerceFloatCol df c).cols.map Prod.fst = df.cols.map Prod.fst
    ∧ (coerceFloatCol df c).nrows = df.nrows
    ∧ ∀ c', c' ≠ c → getCol (coerceFloatCol df c) c' = getCol df c' := by
  unfold coerceFloatCol
  exact ⟨setCol_names_replace _ _ _ h, setCol_nrows .., fun c' hc' =>
    getCol_setCol_ne _ _ _ _ hc'⟩

theorem coerceStage_props (df df' : DF) (h : coerceStage df = .ok df')
    (h1 : hasCol df "year" = true) (h2 : hasCol df "quarter" = true)
    (h3 : hasCol df "contribution" = true) (h4 : hasCol df "weight" = true)
    (h5 : hasCol df "yield" = true) :
    df'.cols.map Prod.fst = df.cols.map Prod.fst
    ∧ df'.nrows = df.nrows
    ∧ ∀ c, c ≠ "year" → c ≠ "quarter" → c ≠ "contribution" → c ≠ "weight" → c ≠ "yield" →
        getCol df' c = getCol df c := by
  unfold coerceStage at h
  cases hy : coerceIntCol df "year" with
  | error e => rw [hy] at h; cases h
  | ok dfy =>
    rw [hy] at h
    dsimp only at h
    cases hq : coerceIntCol dfy "quarter" with
    | error e => rw [hq] at h; cases h
    | ok dfq =>
      rw [hq] at h
      dsimp only at h
      cases h
      obtain ⟨vsy, _, rfl⟩ := coerceIntCol_ok _ _ _ hy
      obtain ⟨vsq, _, rfl⟩ := coerceIntCol_ok _ _ _ hq
      have ny : (setCol df "year" vsy).cols.map Prod.fst = df.cols.map Prod.fst :=
        setCol_names_replace _ _ _ h1
      have h2' : hasCol (setCol df "year" vsy) "quarter" = true :=
        hasCol_of_names_eq _ _ _ ny h2
      have nq : (setCol (setCol df "year" vsy) "quarter" vsq).cols.map Prod.fst
          = df.cols.map Prod.fst := by
        rw [setCol_names_replace _ _ _ h2', ny]
      have h3' : hasCol (setCol (setCol df "year" vsy) "quarter" vsq) "contribution" = true :=
        hasCol_of_names_eq _ _ _ nq h3
      obtain ⟨nc, rc, gc⟩ := coerceFloatCol_props (setCol (setCol df "year" vsy) "quarter" vsq)
        "contribution" h3'
      have h4' : hasCol (coerceFloatCol (setCol (setCol df "year" vsy) "quarter" vsq)
          "contribution") "weight" = true :=
        hasCol_of_names_eq _ _ _ (by rw [nc, nq]) h4
      obtain ⟨nw, rw2, gw⟩ := coerceFloatCol_props _ "weight" h4'
      have h5' : hasCol (coerceFloatCol (coerceFloatCol
          (setCol (setCol df "year" vsy) "quarter" vsq) "contribution") "weight") "yield" = true :=
        hasCol_of_names_eq _ _ _ (by rw [nw, nc, nq]) h5
      obtain ⟨nyl, ryl, gyl⟩ := coerceFloatCol_props _ "yield" h5'
      refine ⟨by rw [nyl, nw, nc, nq], ?_, ?_⟩
      · rw [ryl, rw2, rc, setCol_nrows, setCol_nrows]
      · intro c hc1 hc2 hc3 hc4 hc5
        rw [gyl c hc5, gw c hc4, gc c hc3, getCol_setCol_ne _ _ _ _ hc2,
          getCol_setCol_ne _ _ _ _ hc1]

theorem postCell_liq (v : Cell)
    (hv : v = Cell.none ∨ v = .str "סחיר" ∨ v = .str "לא סחיר") : postCell v = v := by
  rcases hv with rfl | rfl | rfl <;> rfl

theorem api_data_access (t : DF) (o : Output) (h : api_data t = .ok o) :
    ∃ df1 df2, liquidityStage t = .ok df1
      ∧ coerceStage (renameDF df1) = .ok df2
      ∧ required_cols.filter (fun c => !(hasCol t c)) = []
      ∧ o.rows.length = df2.nrows
      ∧ (∀ i c, i < df2.nrows →
          rowGet (o.rows.getD i []) c = postCell ((getCol df2 c).getD i Cell.na))
      ∧ o.meta = buildMeta o.rows := by
  obtain ⟨df1, df2, hmiss, hliq, hco, hrows, hmeta⟩ := api_data_ok h
  refine ⟨df1, df2, hliq, hco, hmiss, ?_, ?_, hmeta⟩
  · rw [hrows, List.length_map, toRecords_length, mapCells_nrows, mapCells_nrows]
  · intro i c hi
    rw [hrows, getD_map_clean_row, toRecords_getD _ _ (by
      rw [mapCells_nrows, mapCells_nrows]; exact hi), rowGet_clean_record,
      getCol_mapCells, getCol_mapCells, clean_getD_mapCells]

/-- Claim C10: the value sanitizer is idempotent, and it is the identity on
every value that is neither None nor a float (a pandas missing value
being a NaN float at runtime). -/
theorem clean_nan_inf_idem_id :
    (∀ v, clean_nan_inf (clean_nan_inf v) = clean_nan_inf v)
    ∧ (∀ v, v ≠ Cell.none → isPyFloat v = false → clean_nan_inf v = v) := by
  constructor
  · intro v
    rcases v with _ | _ | s | n | f
    · rfl
    · rfl
    · rfl
    · rfl
    · rcases f with _ | _ | _ | q <;> rfl
  · intro v h1 h2
    rcases v with _ | _ | s | n | f
    · simp [isPyFloat] at h2
    · exact absurd rfl h1
    · rfl
    · rfl
    · simp [isPyFloat] at h2

theorem clean_nan_inf_idem_id_witness :
    clean_nan_inf (clean_nan_inf (Cell.float .inf)) = clean_nan_inf (Cell.float .inf)
    ∧ Cell.str "x" ≠ Cell.none ∧ isPyFloat (Cell.str "x") = false
    ∧ clean_nan_inf (Cell.str "x") = Cell.str "x" :=
  ⟨clean_nan_inf_idem_id.1 _, by decide, by decide,
   clean_nan_inf_idem_id.2 _ (by decide) (by decide)⟩

/-- Claim C9: the pipeline is deterministic; two runs on the same table give
equal results, in particular equal rows and equal metadata. -/
theorem api_data_deterministic (t : DF) (r₁ r₂ : Except Err Output)
    (h₁ : api_data t = r₁) (h₂ : api_data t = r₂) :
    r₁ = r₂ ∧ ∀ o₁ o₂, r₁ = .ok o₁ → r₂ = .ok o₂ →
      o₁.rows = o₂.rows ∧ o₁.meta = o₂.meta := by
  subst h₁; subst h₂
  exact ⟨rfl, fun o₁ o₂ e₁ e₂ => by
    rw [e₁] at e₂; cases e₂; exact ⟨rfl, rfl⟩⟩

theorem api_data_deterministic_witness : api_data tblBase = api_data tblBase :=
  (api_data_deterministic tblBase (api_data tblBase) (api_data tblBase) rfl rfl).1

/-- Claim C5: when some required column is absent the pipeline raises a schema
error carrying exactly the filtered list of missing columns (hence every
missing required column), and never produces a payload. -/
theorem api_data_schema_error (t : DF)
    (h : ∃ c ∈ required_cols, hasCol t c = false) :
    api_data t = .error (.schemaError (required_cols.filter (fun c => !(hasCol t c))))
    ∧ (∀ c, c ∈ required_cols → hasCol t c = false →
        c ∈ required_cols.filter (fun c => !(hasCol t c)))
    ∧ required_cols.filter (fun c => !(hasCol t c)) ≠ []
    ∧ ∀ o, api_data t ≠ .ok o := by
  obtain ⟨c, hc, hnc⟩ := h
  have hmem : c ∈ required_cols.filter (fun c => !(hasCol t c)) :=
    List.mem_filter.mpr ⟨hc, by simp [hnc]⟩
  have hne : required_cols.filter (fun c => !(hasCol t c)) ≠ [] :=
    List.ne_nil_of_mem hmem
  have happ : api_data t
      = .error (.schemaError (required_cols.filter (fun c => !(hasCol t c)))) := by
    unfold api_data
    rw [if_neg hne]
  refine ⟨happ, ?_, hne, ?_⟩
  · intro c' hc' hnc'
    exact List.mem_filter.mpr ⟨hc', by simp [hnc']⟩
  · intro o ho
    rw [happ] at ho
    cases ho

theorem api_data_schema_error_witness :
    (∃ c ∈ required_cols, hasCol tblMissing c = false)
    ∧ api_data tblMissing = .error (.schemaError ["משקל", "תשואה"]) := by
  refine ⟨by decide, ?_⟩
  rw [(api_data_schema_error tblMissing (by decide)).1]
  decide

/-- Claim C1: the normalisation of a non-canonical liquidity value does NOT
use the row's own category.  On `tblShared`, row 1 has category real
estate (which the classification rule sends to illiquid) and the
non-canonical stale value, yet the pipeline outputs liquid for it,
because the lookup returns the first row whose liquidity value equals
the stale value (row 0, category stocks). -/
theorem api_data_liquidity_lookup_bug :
    (api_data tblShared).toOption.map (fun o =>
        (rowGet (o.rows.getD 1 []) "category", rowGet (o.rows.getD 1 []) "liquidity"))
      = some (Cell.str "נדל\"ן", Cell.str "סחיר")
    ∧ classify_liquidity_from_category (Cell.str "נדל\"ן") = Cell.str "לא סחיר"
    ∧ (getCol tblShared "סחירות").getD 1 Cell.na = Cell.str "חלקי"
    ∧ canonicalLiq (Cell.str "חלקי") = false :=
  ⟨by decide, by decide, by decide, by decide⟩

/-- Claim C2 counterexample: on `tblStale` the output record has a null
category but a non-null (canonical, stale) liquidity value, refuting
the claimed "null if and only if category is null". -/
theorem liquidity_null_iff_category_counterexample :
    (api_data tblStale).toOption.map (fun o =>
        (rowGet (o.rows.getD 0 []) "category", rowGet (o.rows.getD 0 []) "liquidity"))
      = some (Cell.none, Cell.str "סחיר") := by decide

/-- Claim C4 counterexample: on `tblIlliquidStale` the source category is one
of the three illiquid labels, yet the output liquidity is liquid,
because the stale canonical value passes through unchanged. -/
theorem illiquid_rule_stale_counterexample :
    (api_data tblIlliquidStale).toOption.map (fun o =>
        (rowGet (o.rows.getD 0 []) "category", rowGet (o.rows.getD 0 []) "liquidity"))
      = some (Cell.str "נדל\"ן", Cell.str "סחיר")
    ∧ pyStrip "נדל\"ן" ∈ illiquidSet :=
  ⟨by decide, by decide⟩

/-- Claim C6 counterexample: the year value "2.5" parses as a number, yet the
pipeline aborts with the cast error instead of coercing it. -/
theorem coercion_abort_counterexample :
    api_data tblBadYear = .error .castError
    ∧ parseNum "2.5" = Cell.float (.fin (mkRat 5 2)) :=
  ⟨by decide, by decide⟩

/-- Claim C7 counterexample: on a full required table the output record keys
keep the Hebrew track-type label `סוג מסלול`; it is a required column
with no entry in the rename map, so no `track_type` key exists. -/
theorem rename_track_type_counterexample :
    (api_data tblBase).toOption.map (fun o => (o.rows.getD 0 []).map Prod.fst)
      = some ["category", "track_id", "track_name", "company", "company_short",
              "saving_type", "fund_type", "סוג מסלול", "company_id", "year",
              "quarter", "contribution", "weight", "yield", "liquidity"]
    ∧ renameCol "סוג מסלול" = "סוג מסלול"
    ∧ "סוג מסלול" ∈ required_cols :=
  ⟨by decide, by decide, by decide⟩

theorem mem_liqCols (t : DF) (c : String) (h : c ∈ t.cols.map Prod.fst) :
    c ∈ liqCols t := by
  unfold liqCols
  cases hb : hasCol t "סחירות" <;> simp [h]

theorem coerce_cols_present (t df1 : DF)
    (hmiss : required_cols.filter (fun c => !(hasCol t c)) = [])
    (hn1 : df1.cols.map Prod.fst = liqCols t) :
    hasCol (renameDF df1) "year" = true
    ∧ hasCol (renameDF df1) "quarter" = true
    ∧ hasCol (renameDF df1) "contribution" = true
    ∧ hasCol (renameDF df1) "weight" = true
    ∧ hasCol (renameDF df1) "yield" = true := by
  have hreq := required_present t hmiss
  have hren := renameDF_names df1
  rw [hn1] at hren
  have base : ∀ cH cE, cH ∈ required_cols → renameCol cH = cE →
      hasCol (renameDF df1) cE = true := by
    intro cH cE hmemH hrc
    rw [hasCol_iff_names, hren, ← hrc]
    exact List.mem_map.mpr
      ⟨cH, mem_liqCols t cH ((hasCol_iff_names t cH).mp (hreq cH hmemH)), rfl⟩
  exact ⟨base "שנה" _ (by decide) (by decide), base "רבעון" _ (by decide) (by decide),
    base "תרומה" _ (by decide) (by decide), base "משקל" _ (by decide) (by decide),
    base "תשואה" _ (by decide) (by decide)⟩

theorem pipeline_df2 (t df1 df2 : DF)
    (hmiss : required_cols.filter (fun c => !(hasCol t c)) = [])
    (hliq : liquidityStage t = .ok df1)
    (hco : coerceStage (renameDF df1) = .ok df2) :
    df2.cols.map Prod.fst = (liqCols t).map renameCol
    ∧ df2.nrows = t.nrows
    ∧ ∀ c, c ≠ "year" → c ≠ "quarter" → c ≠ "contribution" → c ≠ "weight" → c ≠ "yield" →
        getCol df2 c = getCol (renameDF df1) c := by
  obtain ⟨hn1, hr1, _, _⟩ := liquidityStage_props t df1 hliq
  obtain ⟨hy, hq, hcb, hw, hyl⟩ := coerce_cols_present t df1 hmiss hn1
  obtain ⟨hn2, hr2, hg2⟩ := coerceStage_props _ _ hco hy hq hcb hw hyl
  exact ⟨by rw [hn2, renameDF_names, hn1], by rw [hr2, renameDF_nrows, hr1], hg2⟩

/-- Claim C2 (amended): every output record's liquidity value is one of
liquid, illiquid, or None; the claimed "None exactly when the category
is None" direction fails (see the counterexample). -/
theorem api_data_liquidity_closure (t : DF) (o : Output) (hwf : Wf t)
    (h : api_data t = .ok o) :
    ∀ r ∈ o.rows, rowGet r "liquidity" = Cell.none
      ∨ rowGet r "liquidity" = .str "סחיר"
      ∨ rowGet r "liquidity" = .str "לא סחיר" := by
  obtain ⟨df1, df2, hliq, hco, hmiss, hlen, hacc, hmeta⟩ := api_data_access t o h
  obtain ⟨hn1, hr1, hhas1, hvals⟩ := liquidityStage_props t df1 hliq
  obtain ⟨hn2, hr2, hg2⟩ := pipeline_df2 t df1 df2 hmiss hliq hco
  have hliqcol : getCol df2 "liquidity" = getCol df1 "סחירות" := by
    rw [hg2 "liquidity" (by decide) (by decide) (by decide) (by decide) (by decide)]
    have he : ("liquidity" : String) = renameCol "סחירות" := by decide
    rw [he]
    apply getCol_renameDF df1 "סחירות" hhas1
    rw [hn1]
    exact hwf
  intro r hr
  obtain ⟨i, hi, hri⟩ := List.mem_iff_getElem.mp hr
  have hgetD : o.rows.getD i [] = r := by
    rw [List.getD_eq_getElem?_getD, List.getElem?_eq_getElem hi, hri]
    rfl
  have hi' : i < df2.nrows := hlen ▸ hi
  have hval := hacc i "liquidity" hi'
  rw [hgetD, hliqcol] at hval
  rcases lt_or_ge i (getCol df1 "סחירות").length with hl | hl
  · have hmem : (getCol df1 "סחירות").getD i Cell.na ∈ getCol df1 "סחירות" := by
      rw [List.getD_eq_getElem?_getD, List.getElem?_eq_getElem hl]
      exact List.getElem_mem ..
    have hv := hvals _ hmem
    rw [hval, postCell_liq _ hv]
    exact hv
  · rw [List.getD_eq_default _ _ hl] at hval
    left
    rw [hval]
    rfl

theorem api_data_liquidity_closure_witness :
    rowGet (apiBase.rows.getD 0 []) "liquidity" = Cell.none
    ∨ rowGet (apiBase.rows.getD 0 []) "liquidity" = .str "סחיר"
    ∨ rowGet (apiBase.rows.getD 0 []) "liquidity" = .str "לא סחיר" :=
  api_data_liquidity_closure tblBase apiBase (by decide) (by decide) _ (by decide)

/-- Claim C4 (amended): when the source table has NO liquidity column, a row
whose category is a string in the illiquid set gets illiquid, any other
string category gets liquid; and the classifier is total (it never
throws), always returning None or one of the two canonical labels.
With a liquidity column present, a stale canonical value wins over the
category (see the counterexample). -/
theorem api_data_illiquid_rule (t : DF) (o : Output) (hwf : Wf t)
    (habs : hasCol t "סחירות" = false) (h : api_data t = .ok o) :
    (∀ i s, i < o.rows.length →
      (getCol t "אפיק השקעה").getD i Cell.na = .str s →
      ((pyStrip s ∈ illiquidSet →
          rowGet (o.rows.getD i []) "liquidity" = .str "לא סחיר")
        ∧ (pyStrip s ∉ illiquidSet →
          rowGet (o.rows.getD i []) "liquidity" = .str "סחיר")))
    ∧ ∀ c, classify_liquidity_from_category c = Cell.none
        ∨ classify_liquidity_from_category c = .str "לא סחיר"
        ∨ classify_liquidity_from_category c = .str "סחיר" := by
  refine ⟨?_, classify_mem⟩
  obtain ⟨df1, df2, hliq, hco, hmiss, hlen, hacc, hmeta⟩ := api_data_access t o h
  obtain ⟨hn1, hr1, hhas1, hvals⟩ := liquidityStage_props t df1 hliq
  obtain ⟨hn2, hr2, hg2⟩ := pipeline_df2 t df1 df2 hmiss hliq hco
  have hdf1 : df1 = setCol t "סחירות"
      ((getCol t "אפיק השקעה").map classify_liquidity_from_category) := by
    rw [liquidityStage_absent t habs] at hliq
    cases hliq
    rfl
  have hliqcol : getCol df2 "liquidity"
      = (getCol t "אפיק השקעה").map classify_liquidity_from_category := by
    rw [hg2 "liquidity" (by decide) (by decide) (by decide) (by decide) (by decide)]
    have he : ("liquidity" : String) = renameCol "סחירות" := by decide
    rw [he]
    rw [getCol_renameDF df1 "סחירות" hhas1 (by rw [hn1]; exact hwf), hdf1,
      getCol_setCol_self]
  intro i s hi hs
  have hilen : i < (getCol t "אפיק השקעה").length := by
    by_contra hge
    rw [List.getD_eq_default _ _ (le_of_not_lt hge)] at hs
    cases hs
  have hcell : (getCol t "אפיק השקעה")[i] = .str s := by
    rw [List.getD_eq_getElem?_getD, List.getElem?_eq_getElem hilen] at hs
    exact hs
  have hval := hacc i "liquidity" (hlen ▸ hi)
  rw [hliqcol] at hval
  have hmap : ((getCol t "אפיק השקעה").map classify_liquidity_from_category).getD i Cell.na
      = classify_liquidity_from_category (.str s) := by
    rw [List.getD_eq_getElem?_getD, List.getElem?_map, List.getElem?_eq_getElem hilen, hcell]
    rfl
  rw [hmap] at hval
  have hcls : classify_liquidity_from_category (Cell.str s)
      = if pyStrip s ∈ illiquidSet then Cell.str "לא סחיר" else Cell.str "סחיר" := by
    unfold classify_liquidity_from_category
    rw [if_neg (by simp)]
    rfl
  constructor
  · intro hmem
    rw [hval, hcls, if_pos hmem]
    rfl
  · intro hmem
    rw [hval, hcls, if_neg hmem]
    rfl

theorem api_data_illiquid_rule_witness :
    Wf tblBase ∧ hasCol tblBase "סחירות" = false
    ∧ rowGet (apiBase.rows.getD 0 []) "liquidity" = .str "סחיר" := by
  refine ⟨by decide, by decide, ?_⟩
  have h := ((api_data_illiquid_rule tblBase apiBase (by decide) (by decide)
    (by decide)).1 0 "מניות" (by decide) (by decide)).2 (by decide)
  exact h

/-- Claim C7 (amended): every output record's key list is the table's column
list (with the liquidity column appended when absent) mapped through the
rename table; the rename table maps exactly the fourteen listed source
labels, and the required track-type column `סוג מסלול` has no entry, so
it keeps its Hebrew label instead of becoming `track_type`. -/
theorem api_data_keys (t : DF) (o : Output) (h : api_data t = .ok o) :
    (∀ r ∈ o.rows, r.map Prod.fst = (liqCols t).map renameCol)
    ∧ (∀ p ∈ rename_pairs, renameCol p.1 = p.2)
    ∧ renameCol "סוג מסלול" = "סוג מסלול" := by
  refine ⟨?_, by decide, by decide⟩
  obtain ⟨df1, df2, hmiss, hliq, hco, hrows, hmeta⟩ := api_data_ok h
  obtain ⟨hn2, hr2, hg2⟩ := pipeline_df2 t df1 df2 hmiss hliq hco
  intro r hr
  rw [hrows] at hr
  obtain ⟨rec, hrec, rfl⟩ := List.mem_map.mp hr
  unfold toRecords at hrec
  obtain ⟨i, _, rfl⟩ := List.mem_map.mp hrec
  unfold clean_row
  rw [List.map_map, List.map_map]
  have hfst : ((mapCells naToNone (mapCells replaceInf df2)).cols.map
        ((Prod.fst ∘ fun kv : String × Cell => (kv.1, clean_nan_inf kv.2))
          ∘ fun p : String × List Cell => (p.1, p.2.getD i Cell.na)))
      = (mapCells naToNone (mapCells replaceInf df2)).cols.map Prod.fst :=
    List.map_congr_left (fun p _ => rfl)
  rw [hfst, mapCells_names, mapCells_names, hn2]

theorem api_data_keys_witness :
    (apiBase.rows.getD 0 []).map Prod.fst = (liqCols tblBase).map renameCol
    ∧ renameCol "סוג מסלול" = "סוג מסלול" :=
  ⟨(api_data_keys tblBase apiBase (by decide)).1 _ (by decide),
   (api_data_keys tblBase apiBase (by decide)).2.2⟩

theorem goodCell_clean (v : Cell) : goodCell (clean_nan_inf v) = true := by
  rcases v with _ | _ | s | n | f
  · rfl
  · rfl
  · rfl
  · rfl
  · rcases f with _ | _ | _ | q <;> rfl

theorem mem_unique_sorted_iff (rows : List (List (String × Cell))) (c : String) (v : Cell) :
    v ∈ unique_sorted rows c ↔ v ∈ colVals rows c := by
  unfold unique_sorted
  rw [List.mem_insertionSort, List.mem_dedup]

theorem mem_unique_sorted (rows : List (List (String × Cell))) (c : String) (v : Cell)
    (h : v ∈ unique_sorted rows c) : ∃ r ∈ rows, rowGet r c = v := by
  rw [mem_unique_sorted_iff] at h
  unfold colVals at h
  obtain ⟨hm, _⟩ := List.mem_filter.mp h
  obtain ⟨r, hr, hrv⟩ := List.mem_map.mp hm
  exact ⟨r, hr, hrv⟩

theorem unique_sorted_ne_none (rows : List (List (String × Cell))) (c : String) (v : Cell)
    (h : v ∈ unique_sorted rows c) : v ≠ Cell.none := by
  rw [mem_unique_sorted_iff] at h
  have h2 := (List.mem_filter.mp h).2
  simpa using h2

theorem rowGet_cases (r : List (String × Cell)) (c : String) :
    rowGet r c = Cell.none ∨ ∃ kv ∈ r, rowGet r c = kv.2 := by
  unfold rowGet
  cases hf : r.find? (fun kv => kv.1 == c) with
  | none => left; rfl
  | some kv => right; exact ⟨kv, List.mem_of_find?_eq_some hf, rfl⟩

theorem buildMeta_total (rows : List (List (String × Cell))) :
    (buildMeta rows).total_rows = rows.length := rfl

theorem buildMeta_min (rows : List (List (String × Cell))) :
    (buildMeta rows).min_year = (unique_sorted rows "year").headD Cell.none := rfl

theorem buildMeta_max (rows : List (List (String × Cell))) :
    (buildMeta rows).max_year = (unique_sorted rows "year").getLastD Cell.none := rfl

theorem buildMeta_lists (rows : List (List (String × Cell))) :
    (buildMeta rows).companies = unique_sorted rows "company_short"
    ∧ (buildMeta rows).tracks = unique_sorted rows "track_name"
    ∧ (buildMeta rows).categories = unique_sorted rows "category"
    ∧ (buildMeta rows).saving_types = unique_sorted rows "saving_type"
    ∧ (buildMeta rows).fund_types = unique_sorted rows "fund_type"
    ∧ (buildMeta rows).liquidity = unique_sorted rows "liquidity"
    ∧ (buildMeta rows).years = unique_sorted rows "year" :=
  ⟨rfl, rfl, rfl, rfl, rfl, rfl, rfl⟩

/-- Claim C3: in a successful pipeline output no record value and no metadata
value is a NaN or a positive or negative infinity (every such value has
been replaced by None). -/
theorem api_data_no_nan_inf (t : DF) (o : Output) (h : api_data t = .ok o) :
    (∀ r ∈ o.rows, ∀ kv ∈ r, goodCell kv.2 = true)
    ∧ (∀ v, (v ∈ o.meta.companies ∨ v ∈ o.meta.tracks ∨ v ∈ o.meta.categories
        ∨ v ∈ o.meta.saving_types ∨ v ∈ o.meta.fund_types ∨ v ∈ o.meta.liquidity
        ∨ v ∈ o.meta.years) → goodCell v = true)
    ∧ goodCell o.meta.min_year = true
    ∧ goodCell o.meta.max_year = true := by
  obtain ⟨df1, df2, hmiss, hliq, hco, hrows, hmeta⟩ := api_data_ok h
  have hrowsgood : ∀ r ∈ o.rows, ∀ kv ∈ r, goodCell kv.2 = true := by
    intro r hr kv hkv
    rw [hrows] at hr
    obtain ⟨rec, _, rfl⟩ := List.mem_map.mp hr
    unfold clean_row at hkv
    obtain ⟨kv0, _, rfl⟩ := List.mem_map.mp hkv
    exact goodCell_clean kv0.2
  have hcase : ∀ cname v, v ∈ unique_sorted o.rows cname → goodCell v = true := by
    intro cname v hm
    obtain ⟨r, hr, hrv⟩ := mem_unique_sorted _ _ _ hm
    rcases rowGet_cases r cname with hnone | ⟨kv, hkv, hkv2⟩
    · rw [← hrv, hnone]; rfl
    · rw [← hrv, hkv2]
      exact hrowsgood r hr kv hkv
  obtain ⟨e1, e2, e3, e4, e5, e6, e7⟩ := buildMeta_lists o.rows
  refine ⟨hrowsgood, ?_, ?_, ?_⟩
  · intro v hv
    rw [hmeta] at hv
    rw [e1, e2, e3, e4, e5, e6, e7] at hv
    rcases hv with hv | hv | hv | hv | hv | hv | hv
    · exact hcase _ _ hv
    · exact hcase _ _ hv
    · exact hcase _ _ hv
    · exact hcase _ _ hv
    · exact hcase _ _ hv
    · exact hcase _ _ hv
    · exact hcase _ _ hv
  · rw [hmeta, buildMeta_min]
    cases hys : unique_sorted o.rows "year" with
    | nil => rfl
    | cons a ys =>
      rw [List.headD_cons]
      exact hcase "year" a (hys ▸ List.mem_cons_self a ys)
  · rw [hmeta, buildMeta_max]
    cases hys : unique_sorted o.rows "year" with
    | nil => rfl
    | cons a ys =>
      rw [List.getLastD_cons]
      exact hcase "year" _ (hys ▸ List.getLastD_mem_cons ys a)

theorem api_data_no_nan_inf_witness :
    goodCell apiBase.meta.min_year = true ∧ goodCell apiBase.meta.max_year = true :=
  ⟨(api_data_no_nan_inf tblBase apiBase (by decide)).2.2.1,
   (api_data_no_nan_inf tblBase apiBase (by decide)).2.2.2⟩

theorem unique_sorted_sorted (rows : List (List (String × Cell))) (c : String) :
    List.Sorted cellLe (unique_sorted rows c) :=
  List.sorted_insertionSort cellLe _

theorem unique_sorted_nodup (rows : List (List (String × Cell))) (c : String) :
    (unique_sorted rows c).Nodup :=
  (List.perm_insertionSort cellLe _).nodup_iff.mpr (List.nodup_dedup _)

theorem unique_sorted_nil_iff (rows : List (List (String × Cell))) (c : String) :
    unique_sorted rows c = [] ↔ colVals rows c = [] := by
  unfold unique_sorted
  constructor
  · intro he
    have hlen := (List.perm_insertionSort cellLe (colVals rows c).dedup).length_eq
    rw [he] at hlen
    have hd : (colVals rows c).dedup = [] := List.length_eq_zero.mp hlen.symm
    exact (List.dedup_eq_nil _).mp hd
  · intro he
    rw [he]
    rfl

theorem sorted_headD_le (l : List Cell) (hs : List.Sorted cellLe l) :
    ∀ v ∈ l, cellLe (l.headD Cell.none) v := by
  cases l with
  | nil => intro v hv; cases hv
  | cons a l' =>
    intro v hv
    rw [List.headD_cons]
    rcases List.mem_cons.mp hv with rfl | hv'
    · exact IsRefl.refl v
    · exact List.rel_of_sorted_cons hs v hv'

theorem sorted_getLastD_ge : ∀ (a : Cell) (l : List Cell),
    List.Sorted cellLe (a :: l) → ∀ v ∈ a :: l, cellLe v ((a :: l).getLastD Cell.none) := by
  intro a l
  induction l generalizing a with
  | nil =>
    intro _ v hv
    rcases List.mem_singleton.mp hv with rfl
    exact IsRefl.refl v
  | cons b l' ih =>
    intro hs v hv
    have hlast : ((a :: b :: l').getLastD Cell.none) = ((b :: l').getLastD Cell.none) := by
      simp [List.getLastD_cons]
    rw [hlast]
    rcases List.mem_cons.mp hv with rfl | hv'
    · have hmem : (b :: l').getLastD Cell.none ∈ b :: l' := by
        rw [List.getLastD_cons]
        exact List.getLastD_mem_cons l' b
      exact List.rel_of_sorted_cons hs _ hmem
    · exact ih b hs.of_cons v hv'

/-- Claim C8: the metadata is consistent with the rows: the total equals the
row count; the minimum and maximum year are None exactly when no record
has a non-None year and otherwise are members of, and bounds for, the
non-None year values; and every metadata list is sorted with no
duplicates. -/
theorem api_data_meta (t : DF) (o : Output) (h : api_data t = .ok o) :
    o.meta.total_rows = o.rows.length
    ∧ (o.meta.min_year = Cell.none ↔ colVals o.rows "year" = [])
    ∧ (o.meta.max_year = Cell.none ↔ colVals o.rows "year" = [])
    ∧ (∀ v ∈ colVals o.rows "year",
        o.meta.min_year ∈ colVals o.rows "year" ∧ cellLe o.meta.min_year v)
    ∧ (∀ v ∈ colVals o.rows "year",
        o.meta.max_year ∈ colVals o.rows "year" ∧ cellLe v o.meta.max_year)
    ∧ (colVals o.rows "year" = [] ↔ ∀ r ∈ o.rows, rowGet r "year" = Cell.none)
    ∧ (List.Sorted cellLe o.meta.companies ∧ o.meta.companies.Nodup)
    ∧ (List.Sorted cellLe o.meta.tracks ∧ o.meta.tracks.Nodup)
    ∧ (List.Sorted cellLe o.meta.categories ∧ o.meta.categories.Nodup)
    ∧ (List.Sorted cellLe o.meta.saving_types ∧ o.meta.saving_types.Nodup)
    ∧ (List.Sorted cellLe o.meta.fund_types ∧ o.meta.fund_types.Nodup)
    ∧ (List.Sorted cellLe o.meta.liquidity ∧ o.meta.liquidity.Nodup)
    ∧ (List.Sorted cellLe o.meta.years ∧ o.meta.years.Nodup) := by
  obtain ⟨df1, df2, hmiss, hliq, hco, hrows, hmeta⟩ := api_data_ok h
  obtain ⟨e1, e2, e3, e4, e5, e6, e7⟩ := buildMeta_lists o.rows
  have hminmem : ∀ a ys, unique_sorted o.rows "year" = a :: ys →
      a ∈ colVals o.rows "year" := by
    intro a ys hys
    exact (mem_unique_sorted_iff _ _ _).mp (hys ▸ List.mem_cons_self a ys)
  refine ⟨by rw [hmeta, buildMeta_total], ?_, ?_, ?_, ?_, ?_, ?_, ?_, ?_, ?_, ?_, ?_, ?_⟩
  · rw [hmeta, buildMeta_min]
    cases hys : unique_sorted o.rows "year" with
    | nil =>
      simp only [List.headD_nil]
      constructor
      · intro _
        exact (unique_sorted_nil_iff _ _).mp hys
      · intro _
        trivial
    | cons a ys =>
      rw [List.headD_cons]
      have hane := unique_sorted_ne_none _ _ _ (hys ▸ List.mem_cons_self a ys)
      constructor
      · intro he
        exact absurd he hane
      · intro hc
        have hm := hminmem a ys hys
        rw [hc] at hm
        cases hm
  · rw [hmeta, buildMeta_max]
    cases hys : unique_sorted o.rows "year" with
    | nil =>
      simp only [List.getLastD_nil]
      constructor
      · intro _
        exact (unique_sorted_nil_iff _ _).mp hys
      · intro _
        trivial
    | cons a ys =>
      have hmem : (a :: ys).getLastD Cell.none ∈ unique_sorted o.rows "year" := by
        rw [hys, List.getLastD_cons]
        exact List.getLastD_mem_cons ys a
      have hane := unique_sorted_ne_none _ _ _ hmem
      constructor
      · intro he
        exact absurd he hane
      · intro hc
        have hm := (mem_unique_sorted_iff _ _ _).mp hmem
        rw [hc] at hm
        cases hm
  · intro v hv
    have hvy : v ∈ unique_sorted o.rows "year" := (mem_unique_sorted_iff _ _ _).mpr hv
    cases hys : unique_sorted o.rows "year" with
    | nil => rw [hys] at hvy; cases hvy
    | cons a ys =>
      rw [hmeta, buildMeta_min, hys, List.headD_cons]
      have hs := unique_sorted_sorted o.rows "year"
      rw [hys] at hs hvy
      refine ⟨hminmem a ys hys, ?_⟩
      have := sorted_headD_le (a :: ys) hs v hvy
      rwa [List.headD_cons] at this
  · intro v hv
    have hvy : v ∈ unique_sorted o.rows "year" := (mem_unique_sorted_iff _ _ _).mpr hv
    cases hys : unique_sorted o.rows "year" with
    | nil => rw [hys] at hvy; cases hvy
    | cons a ys =>
      rw [hmeta, buildMeta_max, hys]
      have hs := unique_sorted_sorted o.rows "year"
      rw [hys] at hs hvy
      have hmem : (a :: ys).getLastD Cell.none ∈ unique_sorted o.rows "year" := by
        rw [hys, List.getLastD_cons]
        exact List.getLastD_mem_cons ys a
      exact ⟨(mem_unique_sorted_iff _ _ _).mp hmem, sorted_getLastD_ge a ys hs v hvy⟩
  · unfold colVals
    rw [List.filter_eq_nil_iff]
    constructor
    · intro hall r hr
      have := hall (rowGet r "year") (List.mem_map.mpr ⟨r, hr, rfl⟩)
      simpa using this
    · intro hall v hv
      obtain ⟨r, hr, rfl⟩ := List.mem_map.mp hv
      simp [hall r hr]
  · rw [hmeta, e1]; exact ⟨unique_sorted_sorted _ _, unique_sorted_nodup _ _⟩
  · rw [hmeta, e2]; exact ⟨unique_sorted_sorted _ _, unique_sorted_nodup _ _⟩
  · rw [hmeta, e3]; exact ⟨unique_sorted_sorted _ _, unique_sorted_nodup _ _⟩
  · rw [hmeta, e4]; exact ⟨unique_sorted_sorted _ _, unique_sorted_nodup _ _⟩
  · rw [hmeta, e5]; exact ⟨unique_sorted_sorted _ _, unique_sorted_nodup _ _⟩
  · rw [hmeta, e6]; exact ⟨unique_sorted_sorted _ _, unique_sorted_nodup _ _⟩
  · rw [hmeta, e7]; exact ⟨unique_sorted_sorted _ _, unique_sorted_nodup _ _⟩

theorem api_data_meta_witness :
    apiShared.meta.total_rows = apiShared.rows.length
    ∧ apiShared.meta.min_year ∈ colVals apiShared.rows "year" :=
  ⟨(api_data_meta tblShared apiShared (by decide)).1,
   ((api_data_meta tblShared apiShared (by decide)).2.2.2.1
      (Cell.int 2022) (by decide)).1⟩

theorem parseBody_shape (sgn : Int) (r : List Char) :
    isNumOrNa (parseBody sgn r) = true := by
  unfold parseBody
  repeat' split
  all_goals rfl

theorem parseNum_shape (s : String) : isNumOrNa (parseNum s) = true := by
  unfold parseNum
  split
  · exact parseBody_shape ..
  · exact parseBody_shape ..
  · exact parseBody_shape ..

theorem toNumeric_shape (v : Cell) : isNumOrNa (toNumeric v) = true := by
  rcases v with _ | _ | s | n | f
  · rfl
  · rfl
  · exact parseNum_shape s
  · rfl
  · rfl

theorem isNumOrNa_cases (w : Cell) (h : isNumOrNa w = true) :
    w = Cell.na ∨ (∃ n, w = Cell.int n) ∨ ∃ f, w = Cell.float f := by
  rcases w with _ | _ | s | n | f
  · left; rfl
  · cases h
  · cases h
  · right; left; exact ⟨n, rfl⟩
  · right; right; exact ⟨f, rfl⟩

theorem toInt64_promote (w : Cell) :
    toInt64 (match w with | .int n => Cell.float (.fin (n : ℚ)) | w => w) = toInt64 w := by
  rcases w with _ | _ | s | n | f
  · rfl
  · rfl
  · rfl
  · show toInt64 (Cell.float (.fin (n : ℚ))) = toInt64 (Cell.int n)
    simp [toInt64, Rat.den_intCast, Rat.num_intCast]
  · rfl

theorem toInt64_shape_ok (v : Cell) (h : nonIntegralNum v = false) :
    toInt64 (toNumeric v) = .ok Cell.na ∨ ∃ n, toInt64 (toNumeric v) = .ok (Cell.int n) := by
  unfold nonIntegralNum at h
  have hsh := toNumeric_shape v
  cases htv : toNumeric v with
  | na => left; rfl
  | none => rw [htv] at hsh; cases hsh
  | str s => rw [htv] at hsh; cases hsh
  | int n => right; exact ⟨n, rfl⟩
  | float f =>
    rw [htv] at h
    rcases f with _ | _ | q
    · left; rfl
    · cases h
    · cases h
    · rename_i q
      have hq : q.den = 1 := by simpa using h
      right
      refine ⟨q.num, ?_⟩
      show toInt64 (Cell.float (.fin q)) = .ok (Cell.int q.num)
      simp [toInt64, hq]

theorem toInt64_fail (v : Cell) (h : nonIntegralNum v = true) :
    toInt64 (toNumeric v) = .error .castError := by
  unfold nonIntegralNum at h
  cases htv : toNumeric v with
  | na => rw [htv] at h; cases h
  | none => rw [htv] at h; cases h
  | str s => rw [htv] at h; cases h
  | int n => rw [htv] at h; cases h
  | float f =>
    rw [htv] at h
    rcases f with _ | _ | q
    · cases h
    · rfl
    · rfl
    · rename_i q
      have hq : ¬ (q.den = 1) := by simpa using h
      show toInt64 (Cell.float (.fin q)) = .error .castError
      simp [toInt64, hq]

theorem mapExcept_congr (f g : Cell → Except Err Cell) :
    ∀ l, (∀ v ∈ l, f v = g v) → mapExcept f l = mapExcept g l := by
  intro l
  induction l with
  | nil => intro _; rfl
  | cons v vs ih =>
    intro hall
    unfold mapExcept
    rw [hall v (List.mem_cons_self v vs), ih (fun u hu => hall u (List.mem_cons_of_mem _ hu))]

theorem intCoerce_eq (vs : List Cell) :
    intCoerce vs = mapExcept (fun v => toInt64 (toNumeric v)) vs := by
  unfold intCoerce toNumericCol
  split
  · rw [mapExcept_map]
  · rw [mapExcept_map, mapExcept_map]
    exact mapExcept_congr _ _ vs (fun v _ => toInt64_promote (toNumeric v))

/-- Claim C6 (amended): the float columns are coerced by a total parse-or-null
rule (every result is a number or a missing value, never an error), and
for the year and quarter columns an unparseable value becomes null and
an integral-valued parse becomes an integer, but a parseable
non-integral value (for example "2.5" or "inf") raises the cast error
and aborts the pipeline instead of being coerced. -/
theorem intCoerce_behavior (vs : List Cell) :
    ((∀ v ∈ vs, nonIntegralNum v = false) →
      ∃ ws, intCoerce vs = .ok ws ∧ ws.length = vs.length ∧
        ∀ w ∈ ws, w = Cell.na ∨ ∃ n, w = Cell.int n)
    ∧ ((∃ v ∈ vs, nonIntegralNum v = true) → intCoerce vs = .error .castError)
    ∧ (∀ s : String, isNumOrNa (parseNum s) = true)
    ∧ (∀ w ∈ toNumericCol vs, isNumOrNa w = true) := by
  refine ⟨?_, ?_, parseNum_shape, ?_⟩
  · intro hall
    rw [intCoerce_eq]
    apply mapExcept_ok_of _ (fun w => w = Cell.na ∨ ∃ n, w = Cell.int n)
    intro v hv
    rcases toInt64_shape_ok v (hall v hv) with h1 | ⟨n, h1⟩
    · exact ⟨Cell.na, h1, Or.inl rfl⟩
    · exact ⟨Cell.int n, h1, Or.inr ⟨n, rfl⟩⟩
  · rintro ⟨v, hv, hnv⟩
    rw [intCoerce_eq]
    apply mapExcept_error
    · intro u _
      by_cases hni : nonIntegralNum u = true
      · left; exact toInt64_fail u hni
      · right
        rcases toInt64_shape_ok u (by simpa using hni) with h1 | ⟨n, h1⟩
        · exact ⟨_, h1⟩
        · exact ⟨_, h1⟩
    · exact ⟨v, hv, toInt64_fail v hnv⟩
  · intro w hw
    unfold toNumericCol at hw
    split at hw
    · obtain ⟨v, _, rfl⟩ := List.mem_map.mp hw
      exact toNumeric_shape v
    · obtain ⟨u, hu, rfl⟩ := List.mem_map.mp hw
      obtain ⟨v, _, rfl⟩ := List.mem_map.mp hu
      have hsh := toNumeric_shape v
      rcases isNumOrNa_cases _ hsh with he | ⟨n, he⟩ | ⟨f, he⟩ <;> rw [he] <;> rfl

theorem intCoerce_behavior_witness :
    (∀ v ∈ [Cell.str "2023", Cell.str "abc"], nonIntegralNum v = false)
    ∧ (∃ ws, intCoerce [Cell.str "2023", Cell.str "abc"] = .ok ws ∧
        ws.length = 2 ∧ ∀ w ∈ ws, w = Cell.na ∨ ∃ n, w = Cell.int n)
    ∧ (∃ v ∈ [Cell.str "2.5"], nonIntegralNum v = true)
    ∧ intCoerce [Cell.str "2.5"] = .error .castError := by
  refine ⟨by decide, ?_, by decide, ?_⟩
  · obtain ⟨ws, h1, h2, h3⟩ := (intCoerce_behavior [Cell.str "2023", Cell.str "abc"]).1
      (by decide)
    exact ⟨ws, h1, by rw [h2]; rfl, h3⟩
  · exact (intCoerce_behavior [Cell.str "2.5"]).2.1 ⟨Cell.str "2.5", by decide, by decide⟩

end Yield

